import Mathlib

/-!
Shallow embedding of the trimerge-sync stores:
  * `MemoryStore` from src/packages/trimerge-sync/src/testLib/MemoryStore.ts,
    with its operations `addCommits`, `acknowledgeCommits`,
    `getLocalCommitsEvent`, `getRemoteSyncInfo`, `getCommitsForRemote`,
    `shutdown`.
  * `DocStore` (the SQLite-backed node store) from src/unnamed/part_000,
    with `add` and `getNodesEvent`.

JavaScript `Set<string>` is modelled as a duplicate-free `List String` in
insertion order (`Set.add` appends only when absent); `Array` is `List`;
promises that always resolve become pure functions returning the new store
state next to the produced value.  Sync cursors, produced in the source by
`this.commits.length.toString(36)` and decoded by `parseInt(syncCursor, 36)`,
are modelled by `natToBase36` / `getSyncCounter` below.
-/

namespace TrimergeSync

/-- Character for one base-36 digit, as produced by JavaScript
`Number.prototype.toString(36)`: `0`-`9` then lowercase `a`-`z`. -/
def digitChar36 (d : Nat) : Char :=
  if d < 10 then Char.ofNat (48 + d) else Char.ofNat (87 + d)

/-- Numeric value of one base-36 digit character, as consumed by
JavaScript `parseInt(s, 36)` (digits `0`-`9`, letters from `a`). -/
def charVal36 (c : Char) : Nat :=
  if 97 ≤ c.toNat then c.toNat - 87 else c.toNat - 48

/-- Accumulator loop of base-36 rendering: peel least-significant digits. -/
def natToBase36Aux (n : Nat) (acc : List Char) : List Char :=
  if h : n = 0 then acc
  else natToBase36Aux (n / 36) (digitChar36 (n % 36) :: acc)
termination_by n
decreasing_by exact Nat.div_lt_self (Nat.pos_of_ne_zero h) (by omega)

/-- JavaScript `n.toString(36)` for a natural number. -/
def natToBase36 (n : Nat) : String :=
  if n = 0 then "0" else String.mk (natToBase36Aux n [])

/-- Model of `getSyncCounter` (MemoryStore.ts line 14):
`parseInt(syncCursor, 36)`, on the digit strings the store produces. -/
def getSyncCounter (syncCursor : String) : Nat :=
  syncCursor.data.foldl (fun a c => a * 36 + charVal36 c) 0

theorem charVal36_digitChar36 : ∀ d : Nat, d < 36 → charVal36 (digitChar36 d) = d := by
  decide

/-- Number of base-36 digits `natToBase36Aux` prepends for `n`. -/
def base36Len (n : Nat) : Nat :=
  if h : n = 0 then 0 else base36Len (n / 36) + 1
termination_by n
decreasing_by exact Nat.div_lt_self (Nat.pos_of_ne_zero h) (by omega)

theorem natToBase36Aux_spec (n : Nat) :
    ∀ (k : Nat) (acc : List Char),
      List.foldl (fun a c => a * 36 + charVal36 c) k (natToBase36Aux n acc)
        = List.foldl (fun a c => a * 36 + charVal36 c) (k * 36 ^ base36Len n + n) acc := by
  induction n using Nat.strong_induction_on with
  | _ n ih =>
    intro k acc
    by_cases h : n = 0
    · subst h
      rw [natToBase36Aux, base36Len]
      simp
    · rw [natToBase36Aux, base36Len]
      simp only [h, dite_false, if_neg h]
      rw [ih (n / 36) (Nat.div_lt_self (Nat.pos_of_ne_zero h) (by omega))]
      simp only [List.foldl_cons]
      congr 1
      rw [charVal36_digitChar36 (n % 36) (Nat.mod_lt _ (by omega))]
      rw [pow_succ]
      have hdm : 36 * (n / 36) + n % 36 = n := Nat.div_add_mod n 36
      ring_nf
      omega

theorem getSyncCounter_natToBase36 (n : Nat) : getSyncCounter (natToBase36 n) = n := by
  unfold natToBase36 getSyncCounter
  by_cases h : n = 0
  · subst h; decide
  · simp only [h, if_neg h]
    have := natToBase36Aux_spec n 0 []
    simpa using this

/-- Commit record (fields of `Commit<EditMetadata, Delta>` used by the
stores; `delta` and `editMetadata` are opaque payloads, modelled as
`Option String` placeholders — `MemoryStore` never inspects them). -/
structure Commit where
  ref : String
  baseRef : Option String := none
  mergeRef : Option String := none
  mergeBaseRef : Option String := none
  delta : Option String := none
  editMetadata : Option String := none
  userId : String := ""
  clientId : String := ""
deriving DecidableEq, Repr

/-- Ack event returned by `MemoryStore.addCommits`. -/
structure AckCommitsEvent where
  refs : List String
  syncId : String
deriving DecidableEq, Repr

/-- Commits event returned by `MemoryStore.getLocalCommitsEvent`. -/
structure CommitsEvent where
  commits : List Commit
  syncId : String
deriving DecidableEq, Repr

/-- Result of `MemoryStore.getRemoteSyncInfo`. -/
structure RemoteSyncInfo where
  localStoreId : String
  lastSyncCursor : Option String
deriving DecidableEq, Repr

/-- Mutable state of a `MemoryStore` (MemoryStore.ts lines 24-28).
JavaScript `Set<string>` fields are duplicate-free lists in insertion
order. -/
@[ext]
structure MemoryStore where
  localStoreId : String := ""
  commits : List Commit := []
  localCommitRefs : List String := []
  syncedCommits : List String := []
  lastRemoteSyncCursor : Option String := none
deriving DecidableEq, Repr

/-- JavaScript `Set.add`: append the element only when absent. -/
def setAdd (s : List String) (x : String) : List String :=
  if x ∈ s then s else s ++ [x]

/-- Current sync cursor (MemoryStore.ts lines 48-50):
`this.commits.length.toString(36)`. -/
def MemoryStore.syncCursor (s : MemoryStore) : String :=
  natToBase36 s.commits.length

/-- Loop body of `addCommits` (MemoryStore.ts lines 93-100): push the
commit and record its ref only when the ref is new; always collect the
ref into the ack set. -/
def addCommitsStep (acc : MemoryStore × List String) (c : Commit) :
    MemoryStore × List String :=
  let st := acc.1
  let st' :=
    if c.ref ∈ st.localCommitRefs then st
    else { st with
            commits := st.commits ++ [c],
            localCommitRefs := setAdd st.localCommitRefs c.ref }
  (st', setAdd acc.2 c.ref)

/-- Model of `MemoryStore.addCommits` (MemoryStore.ts lines 87-113):
returns the new store state and the ack event. -/
def MemoryStore.addCommits (s : MemoryStore) (cs : List Commit)
    (remoteSyncId : Option String) : MemoryStore × AckCommitsEvent :=
  let p := cs.foldl addCommitsStep (s, [])
  let st' :=
    match remoteSyncId with
    | some rid =>
        { p.1 with
            syncedCommits := cs.foldl (fun a c => setAdd a c.ref) p.1.syncedCommits,
            lastRemoteSyncCursor := some rid }
    | none => p.1
  (st', { refs := p.2, syncId := st'.syncCursor })

/-- State part of `addCommits`. -/
def MemoryStore.addCommitsState (s : MemoryStore) (cs : List Commit)
    (remoteSyncId : Option String) : MemoryStore :=
  (s.addCommits cs remoteSyncId).1

/-- Model of `MemoryStore.acknowledgeCommits` (MemoryStore.ts lines
114-124): add every given ref to the synced set and record the cursor. -/
def MemoryStore.acknowledgeCommits (s : MemoryStore) (refs : List String)
    (remoteSyncId : String) : MemoryStore :=
  { s with
      syncedCommits := refs.foldl setAdd s.syncedCommits,
      lastRemoteSyncCursor := some remoteSyncId }

/-- Model of `MemoryStore.getLocalCommitsEvent` (MemoryStore.ts lines
126-137): slice the commit list from the decoded cursor (all commits when
no cursor is given) and report the current cursor. -/
def MemoryStore.getLocalCommitsEvent (s : MemoryStore)
    (startSyncCursor : Option String) : CommitsEvent :=
  { commits :=
      match startSyncCursor with
      | some c => s.commits.drop (getSyncCounter c)
      | none => s.commits,
    syncId := s.syncCursor }

/-- Model of `MemoryStore.getRemoteSyncInfo` (MemoryStore.ts lines
138-143). -/
def MemoryStore.getRemoteSyncInfo (s : MemoryStore) : RemoteSyncInfo :=
  ⟨s.localStoreId, s.lastRemoteSyncCursor⟩

/-- Split a list into chunks of five, the `BATCH_SIZE` of
`getCommitsForRemote` (MemoryStore.ts lines 151-157). -/
def chunk5 : List Commit → List (List Commit)
  | [] => []
  | a :: l => ((a :: l).take 5) :: chunk5 ((a :: l).drop 5)
termination_by l => l.length
decreasing_by simp [List.length_drop]; omega

/-- Model of `MemoryStore.getCommitsForRemote` (MemoryStore.ts lines
145-158): the list of batches the async generator yields on a fresh
call — commits whose ref is not in the synced set, in store order,
batched by five. -/
def MemoryStore.getCommitsForRemote (s : MemoryStore) : List (List Commit) :=
  chunk5 (s.commits.filter (fun c => decide (c.ref ∉ s.syncedCommits)))

/-- Model of `MemoryStore.shutdown` (MemoryStore.ts lines 160-169): the
source only calls `shutdown` on the attached remotes and local stores; it
reads or writes none of the store's own fields (`commits`,
`localCommitRefs`, `syncedCommits`, `lastRemoteSyncCursor`), so on the
modelled state it is the identity. -/
def MemoryStore.shutdown (s : MemoryStore) : MemoryStore := s

/-- One public mutating operation on a `MemoryStore`, used to speak about
arbitrary later activity on the store. -/
inductive StoreOp where
  | add (cs : List Commit) (remoteSyncId : Option String)
  | ack (refs : List String) (remoteSyncId : String)
deriving DecidableEq, Repr

/-- Apply one operation to the store state. -/
def applyOp (s : MemoryStore) : StoreOp → MemoryStore
  | .add cs rid => s.addCommitsState cs rid
  | .ack refs rid => s.acknowledgeCommits refs rid

/-- Apply a sequence of operations to the store state. -/
def applyOps (s : MemoryStore) (ops : List StoreOp) : MemoryStore :=
  ops.foldl applyOp s

/-! Helper lemmas about `setAdd` and the `addCommits` loop. -/

theorem mem_setAdd_iff {s : List String} {x y : String} :
    y ∈ setAdd s x ↔ y ∈ s ∨ y = x := by
  unfold setAdd
  by_cases h : x ∈ s
  · simp only [if_pos h]
    constructor
    · exact Or.inl
    · rintro (hy | rfl) <;> [exact hy; exact h]
  · simp [if_neg h]

theorem setAdd_eq_of_mem {s : List String} {x : String} (h : x ∈ s) :
    setAdd s x = s := by
  unfold setAdd; simp [h]

theorem mem_foldl_setAdd_iff {refs : List String} :
    ∀ {a : List String} {y : String},
      y ∈ refs.foldl setAdd a ↔ y ∈ a ∨ y ∈ refs := by
  induction refs with
  | nil => simp
  | cons r rs ih =>
    intro a y
    simp only [List.foldl_cons, ih, mem_setAdd_iff, List.mem_cons]
    tauto

theorem foldl_setAdd_eq_of_subset {refs : List String} :
    ∀ {a : List String}, (∀ r ∈ refs, r ∈ a) → refs.foldl setAdd a = a := by
  induction refs with
  | nil => intros; rfl
  | cons r rs ih =>
    intro a h
    simp only [List.foldl_cons]
    rw [setAdd_eq_of_mem (h r (by simp))]
    exact ih (fun x hx => h x (by simp [hx]))

/-- State-only part of one `addCommits` loop iteration. -/
def addState (s : MemoryStore) (c : Commit) : MemoryStore :=
  if c.ref ∈ s.localCommitRefs then s
  else { s with
          commits := s.commits ++ [c],
          localCommitRefs := setAdd s.localCommitRefs c.ref }

theorem foldl_addCommitsStep (cs : List Commit) :
    ∀ (s : MemoryStore) (rs : List String),
      cs.foldl addCommitsStep (s, rs) =
        (cs.foldl addState s, cs.foldl (fun a c => setAdd a c.ref) rs) := by
  induction cs with
  | nil => intros; rfl
  | cons c cs ih =>
    intro s rs
    simp only [List.foldl_cons]
    rw [ih]
    rfl

theorem addState_localStoreId (s : MemoryStore) (c : Commit) :
    (addState s c).localStoreId = s.localStoreId := by
  unfold addState; split <;> rfl

theorem addState_syncedCommits (s : MemoryStore) (c : Commit) :
    (addState s c).syncedCommits = s.syncedCommits := by
  unfold addState; split <;> rfl

theorem addState_lastRemoteSyncCursor (s : MemoryStore) (c : Commit) :
    (addState s c).lastRemoteSyncCursor = s.lastRemoteSyncCursor := by
  unfold addState; split <;> rfl

theorem addState_localCommitRefs_mono (s : MemoryStore) (c : Commit)
    {x : String} (h : x ∈ s.localCommitRefs) :
    x ∈ (addState s c).localCommitRefs := by
  unfold addState
  split
  · exact h
  · exact mem_setAdd_iff.mpr (Or.inl h)

theorem ref_mem_addState (s : MemoryStore) (c : Commit) :
    c.ref ∈ (addState s c).localCommitRefs := by
  unfold addState
  split
  · assumption
  · exact mem_setAdd_iff.mpr (Or.inr rfl)

theorem addState_eq_of_mem {s : MemoryStore} {c : Commit}
    (h : c.ref ∈ s.localCommitRefs) : addState s c = s := by
  unfold addState; simp [h]

theorem addState_commits_append (s : MemoryStore) (c : Commit) :
    ∃ t, (addState s c).commits = s.commits ++ t := by
  unfold addState
  split
  · exact ⟨[], by simp⟩
  · exact ⟨[c], rfl⟩

theorem foldl_addState_localStoreId (cs : List Commit) :
    ∀ s : MemoryStore, (cs.foldl addState s).localStoreId = s.localStoreId := by
  induction cs with
  | nil => intros; rfl
  | cons c cs ih => intro s; rw [List.foldl_cons, ih, addState_localStoreId]

theorem foldl_addState_syncedCommits (cs : List Commit) :
    ∀ s : MemoryStore, (cs.foldl addState s).syncedCommits = s.syncedCommits := by
  induction cs with
  | nil => intros; rfl
  | cons c cs ih => intro s; rw [List.foldl_cons, ih, addState_syncedCommits]

theorem foldl_addState_lastRemoteSyncCursor (cs : List Commit) :
    ∀ s : MemoryStore,
      (cs.foldl addState s).lastRemoteSyncCursor = s.lastRemoteSyncCursor := by
  induction cs with
  | nil => intros; rfl
  | cons c cs ih => intro s; rw [List.foldl_cons, ih, addState_lastRemoteSyncCursor]

theorem foldl_addState_localCommitRefs_mono (cs : List Commit) :
    ∀ (s : MemoryStore) {x : String}, x ∈ s.localCommitRefs →
      x ∈ (cs.foldl addState s).localCommitRefs := by
  induction cs with
  | nil => intro _ _ h; exact h
  | cons c cs ih =>
    intro s x h
    rw [List.foldl_cons]
    exact ih _ (addState_localCommitRefs_mono s c h)

theorem refs_mem_foldl_addState (cs : List Commit) :
    ∀ (s : MemoryStore) (c : Commit), c ∈ cs →
      c.ref ∈ (cs.foldl addState s).localCommitRefs := by
  induction cs with
  | nil => intro _ _ h; cases h
  | cons a cs ih =>
    intro s c h
    rw [List.foldl_cons]
    rcases List.mem_cons.mp h with rfl | h
    · exact foldl_addState_localCommitRefs_mono cs _ (ref_mem_addState s c)
    · exact ih _ c h

theorem foldl_addState_eq_of_subset {cs : List Commit} :
    ∀ {s : MemoryStore}, (∀ c ∈ cs, c.ref ∈ s.localCommitRefs) →
      cs.foldl addState s = s := by
  induction cs with
  | nil => intros; rfl
  | cons c cs ih =>
    intro s h
    rw [List.foldl_cons, addState_eq_of_mem (h c (by simp))]
    exact ih (fun x hx => h x (by simp [hx]))

theorem foldl_addState_commits_append (cs : List Commit) :
    ∀ s : MemoryStore, ∃ t, (cs.foldl addState s).commits = s.commits ++ t := by
  induction cs with
  | nil => intro s; exact ⟨[], by simp⟩
  | cons c cs ih =>
    intro s
    rw [List.foldl_cons]
    obtain ⟨t₁, h₁⟩ := addState_commits_append s c
    obtain ⟨t₂, h₂⟩ := ih (addState s c)
    exact ⟨t₁ ++ t₂, by rw [h₂, h₁, List.append_assoc]⟩

theorem foldl_ref_setAdd (cs : List Commit) (a : List String) :
    cs.foldl (fun x c => setAdd x c.ref) a = (cs.map Commit.ref).foldl setAdd a :=
  (List.foldl_map _ _ _ _).symm

theorem addCommitsState_none (s : MemoryStore) (cs : List Commit) :
    s.addCommitsState cs none = cs.foldl addState s := by
  unfold MemoryStore.addCommitsState MemoryStore.addCommits
  rw [foldl_addCommitsStep]

theorem addCommitsState_some (s : MemoryStore) (cs : List Commit) (r : String) :
    s.addCommitsState cs (some r) =
      { cs.foldl addState s with
          syncedCommits := (cs.map Commit.ref).foldl setAdd s.syncedCommits,
          lastRemoteSyncCursor := some r } := by
  unfold MemoryStore.addCommitsState MemoryStore.addCommits
  rw [foldl_addCommitsStep]
  simp only
  rw [foldl_ref_setAdd, foldl_addState_syncedCommits]

theorem addCommitsState_commits (s : MemoryStore) (cs : List Commit)
    (rid : Option String) :
    (s.addCommitsState cs rid).commits = (cs.foldl addState s).commits := by
  cases rid with
  | none => rw [addCommitsState_none]
  | some r => rw [addCommitsState_some]

theorem addCommitsState_localCommitRefs (s : MemoryStore) (cs : List Commit)
    (rid : Option String) :
    (s.addCommitsState cs rid).localCommitRefs =
      (cs.foldl addState s).localCommitRefs := by
  cases rid with
  | none => rw [addCommitsState_none]
  | some r => rw [addCommitsState_some]

theorem addCommitsState_localStoreId (s : MemoryStore) (cs : List Commit)
    (rid : Option String) :
    (s.addCommitsState cs rid).localStoreId = s.localStoreId := by
  cases rid with
  | none => rw [addCommitsState_none]; exact foldl_addState_localStoreId cs s
  | some r => rw [addCommitsState_some]; exact foldl_addState_localStoreId cs s

theorem addCommitsState_syncedCommits_none (s : MemoryStore) (cs : List Commit) :
    (s.addCommitsState cs none).syncedCommits = s.syncedCommits := by
  rw [addCommitsState_none]; exact foldl_addState_syncedCommits cs s

theorem addCommitsState_syncedCommits_some (s : MemoryStore) (cs : List Commit)
    (r : String) :
    (s.addCommitsState cs (some r)).syncedCommits =
      (cs.map Commit.ref).foldl setAdd s.syncedCommits := by
  rw [addCommitsState_some]

/-- The claim theorem C1 relies on this: the `addCommits` loop records every
incoming ref into `localCommitRefs`. -/
theorem addCommitsState_refs_recorded (s : MemoryStore) (cs : List Commit)
    (rid : Option String) {c : Commit} (hc : c ∈ cs) :
    c.ref ∈ (s.addCommitsState cs rid).localCommitRefs := by
  rw [addCommitsState_localCommitRefs]
  exact refs_mem_foldl_addState cs s c hc

/-- C1: addCommits is idempotent on ref — running the same batch twice
(with the same optional remote cursor) leaves the whole store state
(commit sequence, known refs, synced set, cursors) as after one run, and a
commit whose ref is already present is silently ignored: nothing is
re-inserted and the known-ref set is unchanged. -/
theorem C1_addCommits_idempotent :
    (∀ (s : MemoryStore) (cs : List Commit) (rid : Option String),
        (s.addCommitsState cs rid).addCommitsState cs rid = s.addCommitsState cs rid)
    ∧ (∀ (s : MemoryStore) (c : Commit) (rid : Option String),
        c.ref ∈ s.localCommitRefs →
          (s.addCommitsState [c] rid).commits = s.commits ∧
          (s.addCommitsState [c] rid).localCommitRefs = s.localCommitRefs) := by
  constructor
  · intro s cs rid
    have hrefs : ∀ x ∈ cs, x.ref ∈ (s.addCommitsState cs rid).localCommitRefs :=
      fun x hx => addCommitsState_refs_recorded s cs rid hx
    cases rid with
    | none =>
      rw [addCommitsState_none (s.addCommitsState cs none) cs]
      exact foldl_addState_eq_of_subset hrefs
    | some r =>
      rw [addCommitsState_some (s.addCommitsState cs (some r)) cs r]
      rw [foldl_addState_eq_of_subset hrefs]
      have hsync : ∀ x ∈ cs.map Commit.ref,
          x ∈ (s.addCommitsState cs (some r)).syncedCommits := by
        intro x hx
        rw [addCommitsState_syncedCommits_some]
        exact mem_foldl_setAdd_iff.mpr (Or.inr hx)
      rw [foldl_setAdd_eq_of_subset hsync]
      have hcur : (s.addCommitsState cs (some r)).lastRemoteSyncCursor = some r := by
        rw [addCommitsState_some]
      ext <;> simp [hcur]
  · intro s c rid h
    have hfold : [c].foldl addState s = s :=
      foldl_addState_eq_of_subset (by intro x hx; rw [List.mem_singleton] at hx; subst hx; exact h)
    refine ⟨?_, ?_⟩
    · rw [addCommitsState_commits, hfold]
    · rw [addCommitsState_localCommitRefs, hfold]

/-- Witness for C1 at a concrete store: the duplicate-ref hypothesis holds
and the commit list and ref set are untouched. -/
theorem C1_witness :
    "a" ∈ (MemoryStore.mk "" [{ ref := "a" }] ["a"] [] none).localCommitRefs ∧
      ((MemoryStore.mk "" [{ ref := "a" }] ["a"] [] none).addCommitsState
          [{ ref := "a" }] none).commits = [{ ref := "a" }] ∧
      ((MemoryStore.mk "" [{ ref := "a" }] ["a"] [] none).addCommitsState
          [{ ref := "a" }] none).localCommitRefs = ["a"] :=
  ⟨by decide,
    (C1_addCommits_idempotent.2 (MemoryStore.mk "" [{ ref := "a" }] ["a"] [] none)
      { ref := "a" } none (by decide)).1,
    (C1_addCommits_idempotent.2 (MemoryStore.mk "" [{ ref := "a" }] ["a"] [] none)
      { ref := "a" } none (by decide)).2⟩

/-! Properties of the batching loop of `getCommitsForRemote`. -/

theorem chunk5_nil : chunk5 [] = [] := by rw [chunk5]

theorem chunk5_flatten_aux :
    ∀ (n : Nat) (l : List Commit), l.length ≤ n → (chunk5 l).flatten = l := by
  intro n
  induction n with
  | zero =>
    intro l h
    rw [List.eq_nil_of_length_eq_zero (Nat.le_zero.mp h), chunk5_nil]
    rfl
  | succ n ih =>
    intro l h
    cases l with
    | nil => rw [chunk5_nil]; rfl
    | cons a t =>
      rw [chunk5, List.flatten_cons, ih ((a :: t).drop 5) ?_, List.take_append_drop]
      simp only [List.length_drop, List.length_cons]
      simp only [List.length_cons] at h
      omega

theorem chunk5_flatten (l : List Commit) : (chunk5 l).flatten = l :=
  chunk5_flatten_aux l.length l le_rfl

theorem chunk5_batch_sizes_aux :
    ∀ (n : Nat) (l : List Commit), l.length ≤ n →
      ∀ b ∈ chunk5 l, b.length ≤ 5 ∧ b ≠ [] := by
  intro n
  induction n with
  | zero =>
    intro l h b hb
    rw [List.eq_nil_of_length_eq_zero (Nat.le_zero.mp h), chunk5_nil] at hb
    cases hb
  | succ n ih =>
    intro l h b hb
    cases l with
    | nil => rw [chunk5_nil] at hb; cases hb
    | cons a t =>
      rw [chunk5] at hb
      rcases List.mem_cons.mp hb with rfl | hb
      · constructor
        · simp [List.length_take]
        · simp [List.take_cons]
      · refine ih ((a :: t).drop 5) ?_ b hb
        simp only [List.length_drop, List.length_cons]
        simp only [List.length_cons] at h
        omega

theorem chunk5_ne_nil_of_arg_ne_nil {l : List Commit} (h : l ≠ []) :
    chunk5 l ≠ [] := by
  cases l with
  | nil => exact absurd rfl h
  | cons a t => rw [chunk5]; exact List.cons_ne_nil _ _

theorem chunk5_full_batches_aux :
    ∀ (n : Nat) (l : List Commit), l.length ≤ n →
      ∀ i : Nat, i + 1 < (chunk5 l).length → ((chunk5 l).getD i []).length = 5 := by
  intro n
  induction n with
  | zero =>
    intro l h i hi
    rw [List.eq_nil_of_length_eq_zero (Nat.le_zero.mp h), chunk5_nil] at hi
    simp at hi
  | succ n ih =>
    intro l h i hi
    cases l with
    | nil => rw [chunk5_nil] at hi; simp at hi
    | cons a t =>
      rw [chunk5] at hi ⊢
      cases i with
      | zero =>
        simp only [List.getD_cons_zero, List.length_take, List.length_cons]
        simp only [List.length_cons] at hi
        by_cases hd : (a :: t).drop 5 = []
        · rw [hd] at hi
          simp [chunk5] at hi
        · have : 5 < (a :: t).length := by
            have := List.length_pos.mpr hd
            simp only [List.length_drop, List.length_cons] at this
            simp only [List.length_cons]
            omega
          simp only [List.length_cons] at this
          omega
      | succ i =>
        simp only [List.getD_cons_succ]
        refine ih ((a :: t).drop 5) ?_ i ?_
        · simp only [List.length_drop, List.length_cons]
          simp only [List.length_cons] at h
          omega
        · simpa using hi

/-- C2: a fresh `getCommitsForRemote` call yields exactly the commits not
marked remote-synced, in store insertion order, in batches of at most five
(every batch except possibly the last has exactly five commits, and no
batch is empty); and a yielded commit whose ref is never acknowledged is
yielded again by a later fresh call after an acknowledgement of other
refs. -/
theorem C2_getCommitsForRemote_spec :
    (∀ s : MemoryStore,
        (s.getCommitsForRemote).flatten
            = s.commits.filter (fun c => decide (c.ref ∉ s.syncedCommits))
        ∧ (∀ b ∈ s.getCommitsForRemote, b.length ≤ 5 ∧ b ≠ [])
        ∧ (∀ i : Nat, i + 1 < s.getCommitsForRemote.length →
            (s.getCommitsForRemote.getD i []).length = 5))
    ∧ (∀ (s : MemoryStore) (c : Commit) (refs : List String) (rid : String),
        c ∈ s.getCommitsForRemote.flatten → c.ref ∉ refs →
        c ∈ ((s.acknowledgeCommits refs rid).getCommitsForRemote).flatten) := by
  constructor
  · intro s
    refine ⟨chunk5_flatten _, ?_, ?_⟩
    · exact fun b hb => chunk5_batch_sizes_aux _ _ le_rfl b hb
    · exact fun i hi => chunk5_full_batches_aux _ _ le_rfl i hi
  · intro s c refs rid hc hnotacked
    rw [MemoryStore.getCommitsForRemote, chunk5_flatten] at hc ⊢
    rcases List.mem_filter.mp hc with ⟨hmem, hpred⟩
    refine List.mem_filter.mpr ⟨hmem, ?_⟩
    simp only [decide_eq_true_eq] at hpred ⊢
    intro habs
    rcases mem_foldl_setAdd_iff.mp habs with h | h
    · exact hpred h
    · exact hnotacked h

/-- Witness for C2's re-yield property at a concrete store: a pending
commit survives an acknowledgement that does not name its ref. -/
theorem C2_witness :
    { ref := "a" } ∈ (MemoryStore.mk "" [{ ref := "a" }] ["a"] [] none).getCommitsForRemote.flatten
    ∧ ¬ ("a" ∈ ["b"])
    ∧ { ref := "a" } ∈
        (((MemoryStore.mk "" [{ ref := "a" }] ["a"] [] none).acknowledgeCommits
            ["b"] "r").getCommitsForRemote).flatten :=
  ⟨by simp [MemoryStore.getCommitsForRemote, chunk5], by decide,
    C2_getCommitsForRemote_spec.2 (MemoryStore.mk "" [{ ref := "a" }] ["a"] [] none)
      { ref := "a" } ["b"] "r" (by simp [MemoryStore.getCommitsForRemote, chunk5])
      (by decide)⟩

/-! Helper lemmas for the cursor-slicing claim. -/

theorem enumFrom_fst_le {l : List Commit} :
    ∀ {n : Nat} {p : Nat × Commit}, p ∈ l.enumFrom n → n ≤ p.1 := by
  induction l with
  | nil => intro n p h; cases h
  | cons a t ih =>
    intro n p h
    rw [List.enumFrom_cons] at h
    rcases List.mem_cons.mp h with rfl | h
    · exact le_rfl
    · exact le_trans (Nat.le_succ n) (ih h)

theorem enumFrom_filter_le_drop (l : List Commit) :
    ∀ (n k : Nat),
      ((l.enumFrom n).filter (fun p => decide (n + k ≤ p.1))).map Prod.snd
        = l.drop k := by
  induction l with
  | nil => intros; simp
  | cons a t ih =>
    intro n k
    rw [List.enumFrom_cons, List.filter_cons]
    cases k with
    | zero =>
      rw [if_pos (by simp)]
      rw [List.filter_eq_self.mpr (fun p hp => by
        simp only [decide_eq_true_eq]
        exact le_trans (Nat.le_succ_of_le (Nat.le_refl n))
          (by simpa using enumFrom_fst_le hp))]
      rw [List.map_cons, List.enumFrom_map_snd, List.drop_zero]
    | succ k =>
      rw [if_neg (by simp)]
      rw [List.filter_congr (q := fun p => decide ((n + 1) + k ≤ p.1))
        (fun p _ => by simp only [decide_eq_decide]; omega)]
      rw [ih (n + 1) k]
      rfl

theorem enum_filter_syncId_drop (l : List Commit) (k : Nat) :
    (l.enum.filter (fun p => decide (k < p.1 + 1))).map Prod.snd = l.drop k := by
  have h := enumFrom_filter_le_drop l 0 k
  show ((l.enumFrom 0).filter _).map Prod.snd = l.drop k
  rw [List.filter_congr (q := fun p => decide (0 + k ≤ p.1))
    (fun p _ => by simp only [decide_eq_decide]; omega)]
  exact h

/-- C3: for a cursor previously produced by the store (the base-36 string
of an earlier commit count `k`), `getLocalCommitsEvent` returns exactly
the tail of the commit list starting at position `k` — equivalently the
commits whose one-based local syncId exceeds `k` — in insertion order,
together with the current cursor; with no cursor it returns every commit. -/
theorem C3_getLocalCommitsEvent_spec :
    (∀ (s : MemoryStore) (k : Nat), k ≤ s.commits.length →
        s.getLocalCommitsEvent (some (natToBase36 k)) =
          { commits := s.commits.drop k, syncId := natToBase36 s.commits.length }
        ∧ s.commits.drop k =
            (s.commits.enum.filter (fun p => decide (k < p.1 + 1))).map Prod.snd)
    ∧ (∀ s : MemoryStore,
        s.getLocalCommitsEvent none =
          { commits := s.commits, syncId := natToBase36 s.commits.length }) := by
  constructor
  · intro s k _
    refine ⟨?_, (enum_filter_syncId_drop s.commits k).symm⟩
    unfold MemoryStore.getLocalCommitsEvent MemoryStore.syncCursor
    simp only
    rw [getSyncCounter_natToBase36]
  · intro s; rfl

/-- Witness for C3 at a concrete two-commit store with cursor "1". -/
theorem C3_witness :
    1 ≤ (MemoryStore.mk "" [{ ref := "a" }, { ref := "b" }] ["a", "b"] [] none).commits.length
    ∧ (MemoryStore.mk "" [{ ref := "a" }, { ref := "b" }] ["a", "b"] [] none).getLocalCommitsEvent
        (some (natToBase36 1)) =
        { commits := [{ ref := "b" }], syncId := natToBase36 2 } :=
  ⟨by decide,
    by
      have h := (C3_getLocalCommitsEvent_spec.1
        (MemoryStore.mk "" [{ ref := "a" }, { ref := "b" }] ["a", "b"] [] none)
        1 (by decide)).1
      simpa using h⟩

/-! Synced-set monotonicity and ack shape. -/

theorem syncedCommits_mono_applyOp (s : MemoryStore) (op : StoreOp) {x : String}
    (h : x ∈ s.syncedCommits) : x ∈ (applyOp s op).syncedCommits := by
  cases op with
  | add cs rid =>
    cases rid with
    | none => rw [applyOp, addCommitsState_syncedCommits_none]; exact h
    | some r =>
      rw [applyOp, addCommitsState_syncedCommits_some]
      exact mem_foldl_setAdd_iff.mpr (Or.inl h)
  | ack refs rid =>
    exact mem_foldl_setAdd_iff.mpr (Or.inl h)

theorem syncedCommits_mono_applyOps (ops : List StoreOp) :
    ∀ (s : MemoryStore) {x : String}, x ∈ s.syncedCommits →
      x ∈ (applyOps s ops).syncedCommits := by
  induction ops with
  | nil => intro _ _ h; exact h
  | cons op ops ih =>
    intro s x h
    exact ih (applyOp s op) (syncedCommits_mono_applyOp s op h)

theorem not_mem_getCommitsForRemote_of_synced {s : MemoryStore} {c : Commit}
    (h : c.ref ∈ s.syncedCommits) : c ∉ s.getCommitsForRemote.flatten := by
  rw [MemoryStore.getCommitsForRemote, chunk5_flatten]
  intro habs
  have := (List.mem_filter.mp habs).2
  rw [decide_eq_true_eq] at this
  exact this h

theorem addCommits_ack (s : MemoryStore) (cs : List Commit) (rid : Option String) :
    (s.addCommits cs rid).2 =
      { refs := cs.foldl (fun a c => setAdd a c.ref) [],
        syncId := natToBase36 (cs.foldl addState s).commits.length } := by
  unfold MemoryStore.addCommits
  rw [foldl_addCommitsStep]
  cases rid <;> simp [MemoryStore.syncCursor]

/-- C4: when `addCommits` is called with a remote sync id, every commit of
the batch is marked remote-synced — after the call, and after any further
sequence of store operations, none of those commits is yielded by
`getCommitsForRemote` — and `getRemoteSyncInfo` reports the supplied id as
the last sync cursor. -/
theorem C4_addCommits_remoteSyncId :
    ∀ (s : MemoryStore) (cs : List Commit) (rid : String),
      (∀ c ∈ cs, c.ref ∈ (s.addCommitsState cs (some rid)).syncedCommits)
      ∧ (s.addCommitsState cs (some rid)).getRemoteSyncInfo =
          ⟨s.localStoreId, some rid⟩
      ∧ (∀ (ops : List StoreOp), ∀ c ∈ cs,
          c ∉ (applyOps (s.addCommitsState cs (some rid)) ops).getCommitsForRemote.flatten) := by
  intro s cs rid
  have hsync : ∀ c ∈ cs, c.ref ∈ (s.addCommitsState cs (some rid)).syncedCommits := by
    intro c hc
    rw [addCommitsState_syncedCommits_some]
    exact mem_foldl_setAdd_iff.mpr (Or.inr (List.mem_map_of_mem Commit.ref hc))
  refine ⟨hsync, ?_, ?_⟩
  · unfold MemoryStore.getRemoteSyncInfo
    rw [addCommitsState_localStoreId]
    rw [addCommitsState_some]
  · intro ops c hc
    exact not_mem_getCommitsForRemote_of_synced
      (syncedCommits_mono_applyOps ops _ (hsync c hc))

/-- Witness for C4 at a concrete one-commit batch and a later unrelated
operation. -/
theorem C4_witness :
    { ref := "a" } ∈ [({ ref := "a" } : Commit)]
    ∧ ({ ref := "a" } : Commit) ∉
        (applyOps ((MemoryStore.mk "" [] [] [] none).addCommitsState
            [{ ref := "a" }] (some "c1")) [StoreOp.add [{ ref := "b" }] none]).getCommitsForRemote.flatten :=
  ⟨by decide,
    (C4_addCommits_remoteSyncId (MemoryStore.mk "" [] [] [] none) [{ ref := "a" }] "c1").2.2
      [StoreOp.add [{ ref := "b" }] none] { ref := "a" } (by decide)⟩

/-- C5: re-inserting an existing ref together with a remote sync id is an
acknowledgement, not a duplicate error: the call returns an ack naming the
ref, appends nothing, marks the ref remote-synced, and records the
supplied cursor. -/
theorem C5_duplicate_ref_is_ack :
    ∀ (s : MemoryStore) (c : Commit) (rid : String),
      c.ref ∈ s.localCommitRefs →
        (s.addCommits [c] (some rid)).1.commits = s.commits
        ∧ (s.addCommits [c] (some rid)).1.localCommitRefs = s.localCommitRefs
        ∧ c.ref ∈ (s.addCommits [c] (some rid)).1.syncedCommits
        ∧ (s.addCommits [c] (some rid)).1.lastRemoteSyncCursor = some rid
        ∧ (s.addCommits [c] (some rid)).2.refs = [c.ref]
        ∧ (s.addCommits [c] (some rid)).2.syncId = natToBase36 s.commits.length := by
  intro s c rid h
  have hfold : [c].foldl addState s = s := by
    rw [List.foldl_cons, List.foldl_nil, addState_eq_of_mem h]
  have h1 : (s.addCommits [c] (some rid)).1 = s.addCommitsState [c] (some rid) := rfl
  refine ⟨?_, ?_, ?_, ?_, ?_, ?_⟩
  · rw [h1, addCommitsState_commits, hfold]
  · rw [h1, addCommitsState_localCommitRefs, hfold]
  · rw [h1, addCommitsState_syncedCommits_some]
    exact mem_foldl_setAdd_iff.mpr (Or.inr (by simp))
  · rw [h1, addCommitsState_some]
  · rw [addCommits_ack]
    simp [setAdd]
  · rw [addCommits_ack]
    simp only
    rw [hfold]

/-- Witness for C5: acknowledging the already-present ref "a" by
re-inserting it. -/
theorem C5_witness :
    "a" ∈ (MemoryStore.mk "" [{ ref := "a" }] ["a"] [] none).localCommitRefs
    ∧ ((MemoryStore.mk "" [{ ref := "a" }] ["a"] [] none).addCommits
        [{ ref := "a" }] (some "s9")).1.commits = [{ ref := "a" }]
    ∧ ((MemoryStore.mk "" [{ ref := "a" }] ["a"] [] none).addCommits
        [{ ref := "a" }] (some "s9")).1.lastRemoteSyncCursor = some "s9" :=
  ⟨by decide,
    (C5_duplicate_ref_is_ack (MemoryStore.mk "" [{ ref := "a" }] ["a"] [] none)
      { ref := "a" } "s9" (by decide)).1,
    (C5_duplicate_ref_is_ack (MemoryStore.mk "" [{ ref := "a" }] ["a"] [] none)
      { ref := "a" } "s9" (by decide)).2.2.2.1⟩

/-- C6: acknowledging refs of commits already in the store marks exactly
those refs synced and records the cursor, while the commit sequence and
the known-ref set stay unchanged (no insertion, no mutation of any stored
commit record), and the acknowledged commits disappear from
`getCommitsForRemote`. -/
theorem C6_acknowledgeCommits_frame :
    ∀ (s : MemoryStore) (refs : List String) (rid : String),
      (∀ r ∈ refs, r ∈ s.localCommitRefs) →
        (s.acknowledgeCommits refs rid).commits = s.commits
        ∧ (s.acknowledgeCommits refs rid).localCommitRefs = s.localCommitRefs
        ∧ (∀ r ∈ refs, r ∈ (s.acknowledgeCommits refs rid).syncedCommits)
        ∧ (s.acknowledgeCommits refs rid).lastRemoteSyncCursor = some rid
        ∧ (∀ c ∈ s.commits, c.ref ∈ refs →
            c ∉ (s.acknowledgeCommits refs rid).getCommitsForRemote.flatten) := by
  intro s refs rid _
  refine ⟨rfl, rfl, ?_, rfl, ?_⟩
  · intro r hr
    exact mem_foldl_setAdd_iff.mpr (Or.inr hr)
  · intro c _ hcref
    exact not_mem_getCommitsForRemote_of_synced
      (mem_foldl_setAdd_iff.mpr (Or.inr hcref))

/-- Witness for C6: acknowledging the stored ref "a". -/
theorem C6_witness :
    (∀ r ∈ ["a"], r ∈ (MemoryStore.mk "" [{ ref := "a" }] ["a"] [] none).localCommitRefs)
    ∧ ((MemoryStore.mk "" [{ ref := "a" }] ["a"] [] none).acknowledgeCommits
        ["a"] "s1").commits = [{ ref := "a" }]
    ∧ ({ ref := "a" } : Commit) ∉
        ((MemoryStore.mk "" [{ ref := "a" }] ["a"] [] none).acknowledgeCommits
          ["a"] "s1").getCommitsForRemote.flatten :=
  ⟨by decide,
    (C6_acknowledgeCommits_frame (MemoryStore.mk "" [{ ref := "a" }] ["a"] [] none)
      ["a"] "s1" (by decide)).1,
    (C6_acknowledgeCommits_frame (MemoryStore.mk "" [{ ref := "a" }] ["a"] [] none)
      ["a"] "s1" (by decide)).2.2.2.2 { ref := "a" } (by decide) (by decide)⟩

/-- C7: the store is append-only, so the implicit local syncIds (positions
in the commit sequence) of newly accepted commits strictly exceed all
earlier ones; the ack cursor of `addCommits` decodes (base 36) to the
commit count after the call, and across successive calls these decoded
cursors never decrease. -/
theorem C7_monotonic_syncId :
    ∀ (s : MemoryStore) (cs cs₂ : List Commit) (rid rid₂ : Option String),
      (∃ t, (s.addCommitsState cs rid).commits = s.commits ++ t)
      ∧ getSyncCounter (s.addCommits cs rid).2.syncId
          = (s.addCommitsState cs rid).commits.length
      ∧ s.commits.length ≤ (s.addCommitsState cs rid).commits.length
      ∧ getSyncCounter (s.addCommits cs rid).2.syncId
          ≤ getSyncCounter ((s.addCommitsState cs rid).addCommits cs₂ rid₂).2.syncId := by
  intro s cs cs₂ rid rid₂
  have happend : ∀ (s' : MemoryStore) (cs' : List Commit) (rid' : Option String),
      ∃ t, (s'.addCommitsState cs' rid').commits = s'.commits ++ t := by
    intro s' cs' rid'
    rw [addCommitsState_commits]
    exact foldl_addState_commits_append cs' s'
  have hcursor : ∀ (s' : MemoryStore) (cs' : List Commit) (rid' : Option String),
      getSyncCounter (s'.addCommits cs' rid').2.syncId
        = (s'.addCommitsState cs' rid').commits.length := by
    intro s' cs' rid'
    rw [addCommits_ack]
    simp only
    rw [getSyncCounter_natToBase36, addCommitsState_commits]
  have hle : ∀ (s' : MemoryStore) (cs' : List Commit) (rid' : Option String),
      s'.commits.length ≤ (s'.addCommitsState cs' rid').commits.length := by
    intro s' cs' rid'
    obtain ⟨t, ht⟩ := happend s' cs' rid'
    rw [ht, List.length_append]
    omega
  refine ⟨happend s cs rid, hcursor s cs rid, hle s cs rid, ?_⟩
  rw [hcursor s cs rid, hcursor (s.addCommitsState cs rid) cs₂ rid₂]
  exact hle (s.addCommitsState cs rid) cs₂ rid₂

/-- C8 counterexample: the claim says that after `shutdown()` completes,
`addCommits` fails fast instead of succeeding or mutating state.  In the
source, `shutdown` only shuts down the attached remotes and local stores
and records nothing on the store itself, so at the concrete input — an
empty store, then `shutdown()`, then `addCommits([{ref:"a"}])` — the call
succeeds and appends the commit: the resulting commit sequence is
nonempty. -/
theorem C8_counterexample :
    ((MemoryStore.mk "" [] [] [] none).shutdown.addCommitsState
        [{ ref := "a" }] none).commits = [{ ref := "a" }]
    ∧ ((MemoryStore.mk "" [] [] [] none).shutdown.addCommitsState
        [{ ref := "a" }] none).commits ≠ [] := by
  constructor
  · decide
  · decide

/-- C8 amended: `shutdown` only shuts down the attached remotes and local
stores; the `MemoryStore` itself keeps no closed flag, and every public
operation after `shutdown` behaves exactly as it would have before —
it succeeds (and mutates state) rather than failing with a shutdown
error. -/
theorem C8_shutdown_does_not_poison_store :
    ∀ (s : MemoryStore) (cs : List Commit) (rid : Option String)
      (refs : List String) (rid₂ : String) (cur : Option String),
      s.shutdown.addCommits cs rid = s.addCommits cs rid
      ∧ s.shutdown.acknowledgeCommits refs rid₂ = s.acknowledgeCommits refs rid₂
      ∧ s.shutdown.getLocalCommitsEvent cur = s.getLocalCommitsEvent cur
      ∧ s.shutdown.getRemoteSyncInfo = s.getRemoteSyncInfo
      ∧ s.shutdown.getCommitsForRemote = s.getCommitsForRemote := by
  intro s cs rid refs rid₂ cur
  exact ⟨rfl, rfl, rfl, rfl, rfl⟩

/-- C10: `acknowledgeCommits` performs no existence check — for any list
of refs, present in the store or not, it succeeds, marks every given ref
remote-synced, and records the cursor; consequently a commit whose ref was
acknowledged before it was ever added is not yielded by
`getCommitsForRemote` even after it is later added without a remote sync
id. -/
theorem C10_acknowledge_without_existence :
    ∀ (s : MemoryStore) (refs : List String) (rid : String),
      (∀ r ∈ refs, r ∈ (s.acknowledgeCommits refs rid).syncedCommits)
      ∧ (s.acknowledgeCommits refs rid).lastRemoteSyncCursor = some rid
      ∧ (∀ (cs : List Commit), ∀ c ∈ cs, c.ref ∈ refs →
          c ∉ ((s.acknowledgeCommits refs rid).addCommitsState cs none).getCommitsForRemote.flatten) := by
  intro s refs rid
  refine ⟨fun r hr => mem_foldl_setAdd_iff.mpr (Or.inr hr), rfl, ?_⟩
  intro cs c _ hcref
  refine not_mem_getCommitsForRemote_of_synced ?_
  rw [addCommitsState_syncedCommits_none]
  exact mem_foldl_setAdd_iff.mpr (Or.inr hcref)

/-- Witness for C10: the ref "g" (a ghost: not in the store) is
acknowledged first; the commit with that ref, added afterwards without a
remote sync id, is not offered to the remote. -/
theorem C10_witness :
    ({ ref := "g" } : Commit) ∈ [({ ref := "g" } : Commit)]
    ∧ "g" ∈ (["g"] : List String)
    ∧ ({ ref := "g" } : Commit) ∉
        (((MemoryStore.mk "" [] [] [] none).acknowledgeCommits ["g"] "r1").addCommitsState
          [{ ref := "g" }] none).getCommitsForRemote.flatten :=
  ⟨by decide, by decide,
    (C10_acknowledge_without_existence (MemoryStore.mk "" [] [] [] none) ["g"] "r1").2.2
      [{ ref := "g" }] { ref := "g" } (by decide) (by decide)⟩

/-!
Model of the SQLite `DocStore` (src/unnamed/part_000).  The `nodes` table
is a list of rows in insertion (rowid) order; `insert.run` with the `ref`
primary key fails on a duplicate ref and the surrounding transaction rolls
back, modelled by `Except`.  `JSON.stringify` / `JSON.parse` on the opaque
`Delta` and `EditMetadata` payloads are external to the repository and are
passed in as codec functions.  A named-parameter value of `undefined` —
an absent `baseRef` / `mergeRef` / `mergeBaseRef`, or an absent payload,
since `JSON.stringify(undefined)` is `undefined` — is rejected by
better-sqlite3 with a `TypeError` (it can only bind numbers, strings,
bigints, buffers, and null), so such a node makes the whole `add` throw;
`none` in a bound row therefore models an `undefined` binding, never a
stored SQL `NULL` (columns read back as `NULL` only through writers
outside this code path).  `ORDER BY remoteSyncId` on the TEXT values is a
stable sort by the string key (rows with equal keys keep rowid order).
-/

/-- Row of the SQLite `nodes` table (`SqliteNodeType`, part_000 lines 8-18). -/
structure SqliteNode where
  ref : String
  remoteSyncId : String
  userId : String
  clientId : String
  baseRef : Option String
  mergeRef : Option String
  mergeBaseRef : Option String
  delta : Option String
  editMetadata : Option String
deriving DecidableEq, Repr

/-- In-memory form of a `DiffNode<EditMetadata, Delta>` as handled by the
`DocStore`. -/
structure DiffNode (Delta EditMetadata : Type) where
  ref : String
  remoteSyncId : String := ""
  userId : String := ""
  clientId : String := ""
  baseRef : Option String := none
  mergeRef : Option String := none
  mergeBaseRef : Option String := none
  delta : Option Delta := none
  editMetadata : Option EditMetadata := none
deriving DecidableEq, Repr

/-- Ack event returned by `DocStore.add`. -/
structure AckNodesEvent where
  refs : List String
  syncId : String
deriving DecidableEq, Repr

/-- Event returned by `DocStore.getNodesEvent`. -/
structure NodesEvent (Delta EditMetadata : Type) where
  nodes : List (DiffNode Delta EditMetadata)
  syncId : String
deriving DecidableEq, Repr

/-- Lexicographic code-unit comparison on character lists, the order both
SQLite (BINARY collation) and JavaScript `<` use on the stored strings. -/
def charListLt : List Char → List Char → Bool
  | [], [] => false
  | [], _ :: _ => true
  | _ :: _, [] => false
  | a :: as, b :: bs =>
      if a.toNat < b.toNat then true
      else if b.toNat < a.toNat then false
      else charListLt as bs

/-- Strict string comparison (JavaScript `a < b`, SQLite `BINARY`). -/
def strLt (a b : String) : Bool := charListLt a.data b.data

/-- Non-strict string comparison; for this total order `a <= b`
is `!(b < a)`. -/
def strLe (a b : String) : Bool := !(strLt b a)

theorem charListLt_self : ∀ l : List Char, charListLt l l = false := by
  intro l
  induction l with
  | nil => rfl
  | cons a as ih => simp [charListLt, ih]

theorem strLt_self (s : String) : strLt s s = false := charListLt_self s.data

theorem strLe_self (s : String) : strLe s s = true := by
  rw [strLe, strLt_self]
  rfl

namespace DocStore

/-- The named-parameter bindings of one `insert.run` call (part_000 lines
107-117): the whole batch shares one generated `remoteSyncId`.  A `none`
field is an `undefined` binding value, which `insertRow` rejects — it is
not a stored `NULL`. -/
def toRow {Delta Meta : Type} (encD : Delta → String) (encM : Meta → String)
    (rid : String) (n : DiffNode Delta Meta) : SqliteNode :=
  { ref := n.ref, remoteSyncId := rid, userId := n.userId,
    clientId := n.clientId, baseRef := n.baseRef, mergeRef := n.mergeRef,
    mergeBaseRef := n.mergeBaseRef, delta := n.delta.map encD,
    editMetadata := n.editMetadata.map encM }

/-- One `insert.run` call: better-sqlite3 first validates the bindings and
throws a `TypeError` when any named-parameter value is `undefined` (an
absent optional field of the node); only then does SQLite enforce the
`ref` primary key, raising on a duplicate ref. -/
def insertRow (db : List SqliteNode) (row : SqliteNode) :
    Except String (List SqliteNode) :=
  if row.baseRef.isNone || row.mergeRef.isNone || row.mergeBaseRef.isNone
      || row.delta.isNone || row.editMetadata.isNone then
    Except.error "TypeError: SQLite3 can only bind numbers, strings, bigints, buffers, and null"
  else if db.any (fun r => r.ref == row.ref) then
    Except.error "UNIQUE constraint failed: nodes.ref"
  else Except.ok (db ++ [row])

/-- Model of `DocStore.add` (part_000 lines 88-126): generate one
`remoteSyncId` for the batch (passed here as `rid`), insert every node in
one transaction, and ack with the pushed refs and `String(remoteSyncId)`. -/
def add {Delta Meta : Type} (encD : Delta → String) (encM : Meta → String)
    (db : List SqliteNode) (nodes : List (DiffNode Delta Meta)) (rid : String) :
    Except String (List SqliteNode × AckNodesEvent) :=
  match nodes.foldlM (fun acc n => insertRow acc (toRow encD encM rid n)) db with
  | Except.error e => Except.error e
  | Except.ok db' =>
      Except.ok (db', { refs := nodes.map DiffNode.ref, syncId := rid })

/-- JavaScript `x || undefined` on a nullable string column: the empty
string is falsy and collapses to `undefined`. -/
def orUndefined : Option String → Option String
  | some s => if s = "" then none else some s
  | none => none

/-- JavaScript `x ? JSON.parse(x) : undefined` on a nullable string
column. -/
def parseField {α : Type} (dec : String → α) : Option String → Option α
  | some s => if s = "" then none else some (dec s)
  | none => none

/-- The row-to-node mapping of `getNodesEvent` (part_000 lines 53-79). -/
def rowToNode {Delta Meta : Type} (decD : String → Delta) (decM : String → Meta)
    (r : SqliteNode) : DiffNode Delta Meta :=
  { ref := r.ref, remoteSyncId := r.remoteSyncId, userId := r.userId,
    clientId := r.clientId, baseRef := orUndefined r.baseRef,
    mergeRef := orUndefined r.mergeRef,
    mergeBaseRef := orUndefined r.mergeBaseRef,
    delta := parseField decD r.delta,
    editMetadata := parseField decM r.editMetadata }

/-- Stable insertion of a row into a run sorted by `remoteSyncId`: the new
row goes after every row with a key less than or equal to its own. -/
def insertRowSorted (x : SqliteNode) : List SqliteNode → List SqliteNode
  | [] => [x]
  | y :: ys =>
      if strLe y.remoteSyncId x.remoteSyncId then y :: insertRowSorted x ys
      else x :: y :: ys

/-- Model of `ORDER BY remoteSyncId`: a stable sort of the rows by their
`remoteSyncId` string. -/
def sortRows (rows : List SqliteNode) : List SqliteNode :=
  rows.foldl (fun acc r => insertRowSorted r acc) []

/-- The running maximum `getNodesEvent` keeps while mapping rows
(part_000 lines 52, 65-67): JavaScript string comparison starting from
the empty string. -/
def maxSyncId (rows : List SqliteNode) : String :=
  rows.foldl (fun acc r => if strLt acc r.remoteSyncId then r.remoteSyncId else acc) ""

/-- Model of `DocStore.getNodesEvent` (part_000 lines 43-86). -/
def getNodesEvent {Delta Meta : Type} (decD : String → Delta) (decM : String → Meta)
    (db : List SqliteNode) (lastSyncId : Option String) : NodesEvent Delta Meta :=
  let rows :=
    match lastSyncId with
    | none => sortRows db
    | some ls => sortRows (db.filter (fun r => strLt ls r.remoteSyncId))
  { nodes := rows.map (rowToNode decD decM), syncId := maxSyncId rows }

theorem toRow_ref {Delta Meta : Type} (encD : Delta → String) (encM : Meta → String)
    (rid : String) (n : DiffNode Delta Meta) :
    (toRow encD encM rid n).ref = n.ref := rfl

theorem toRow_remoteSyncId {Delta Meta : Type} (encD : Delta → String)
    (encM : Meta → String) (rid : String) (n : DiffNode Delta Meta) :
    (toRow encD encM rid n).remoteSyncId = rid := rfl

theorem foldlM_insertRow_ok {Delta Meta : Type} (encD : Delta → String)
    (encM : Meta → String) (rid : String) :
    ∀ (nodes : List (DiffNode Delta Meta)) (db : List SqliteNode),
      (∀ n ∈ nodes, ∀ r ∈ db, r.ref ≠ n.ref) →
      nodes.Pairwise (fun a b => a.ref ≠ b.ref) →
      (∀ n ∈ nodes, n.baseRef ≠ none ∧ n.mergeRef ≠ none ∧ n.mergeBaseRef ≠ none
        ∧ n.delta ≠ none ∧ n.editMetadata ≠ none) →
      nodes.foldlM (fun acc n => insertRow acc (toRow encD encM rid n)) db
        = Except.ok (db ++ nodes.map (toRow encD encM rid)) := by
  intro nodes
  induction nodes with
  | nil => intro db _ _ _; simp; rfl
  | cons n ns ih =>
    intro db hdb hpw hdef
    rw [List.foldlM_cons]
    have hbind : ((toRow encD encM rid n).baseRef.isNone
        || (toRow encD encM rid n).mergeRef.isNone
        || (toRow encD encM rid n).mergeBaseRef.isNone
        || (toRow encD encM rid n).delta.isNone
        || (toRow encD encM rid n).editMetadata.isNone) = false := by
      obtain ⟨h1, h2, h3, h4, h5⟩ := hdef n (by simp)
      obtain ⟨b, hb⟩ := Option.ne_none_iff_exists'.mp h1
      obtain ⟨mr, hmr⟩ := Option.ne_none_iff_exists'.mp h2
      obtain ⟨mb, hmb⟩ := Option.ne_none_iff_exists'.mp h3
      obtain ⟨d, hd2⟩ := Option.ne_none_iff_exists'.mp h4
      obtain ⟨m, hm2⟩ := Option.ne_none_iff_exists'.mp h5
      show (n.baseRef.isNone || n.mergeRef.isNone || n.mergeBaseRef.isNone
          || (n.delta.map encD).isNone || (n.editMetadata.map encM).isNone) = false
      rw [hb, hmr, hmb, hd2, hm2]
      rfl
    have hnew : db.any (fun r => r.ref == (toRow encD encM rid n).ref) = false := by
      rw [List.any_eq_false]
      intro r hr
      rw [toRow_ref]
      simp only [beq_iff_eq]
      exact hdb n (by simp) r hr
    rw [insertRow, if_neg (by rw [hbind]; exact Bool.false_ne_true),
      if_neg (by rw [hnew]; exact Bool.false_ne_true)]
    show (ns.foldlM _ (db ++ [toRow encD encM rid n])) = _
    rw [ih (db ++ [toRow encD encM rid n]) ?_
      (List.Pairwise.sublist (List.sublist_cons_self n ns) hpw)
      (fun m hm => hdef m (by simp [hm]))]
    · rw [List.append_assoc]
      rfl
    · intro m hm r hr
      rcases List.mem_append.mp hr with hr | hr
      · exact hdb m (by simp [hm]) r hr
      · rw [List.mem_singleton.mp hr, toRow_ref]
        exact (List.pairwise_cons.mp hpw).1 m hm

theorem insertRowSorted_all_le (x : SqliteNode) :
    ∀ acc : List SqliteNode,
      (∀ y ∈ acc, strLe y.remoteSyncId x.remoteSyncId = true) →
      insertRowSorted x acc = acc ++ [x] := by
  intro acc
  induction acc with
  | nil => intro _; rfl
  | cons y ys ih =>
    intro h
    rw [insertRowSorted, if_pos (h y (by simp)), ih (fun z hz => h z (by simp [hz]))]
    rfl

theorem sortRows_all_eq_aux (rid : String) :
    ∀ (l acc : List SqliteNode),
      (∀ r ∈ l, r.remoteSyncId = rid) → (∀ r ∈ acc, r.remoteSyncId = rid) →
      l.foldl (fun acc r => insertRowSorted r acc) acc = acc ++ l := by
  intro l
  induction l with
  | nil => intro acc _ _; simp
  | cons r rs ih =>
    intro acc hl hacc
    rw [List.foldl_cons]
    rw [insertRowSorted_all_le r acc (fun y hy => by
      rw [hacc y hy, hl r (by simp)]
      exact strLe_self rid)]
    rw [ih (acc ++ [r]) (fun z hz => hl z (by simp [hz])) ?_]
    · rw [List.append_assoc]; rfl
    · intro z hz
      rcases List.mem_append.mp hz with hz | hz
      · exact hacc z hz
      · rw [List.mem_singleton.mp hz]
        exact hl r (by simp)

theorem sortRows_all_eq {rid : String} {rows : List SqliteNode}
    (h : ∀ r ∈ rows, r.remoteSyncId = rid) : sortRows rows = rows :=
  sortRows_all_eq_aux rid rows [] h (by simp)

theorem maxSyncId_step_fixed (rid acc : String) (r : SqliteNode)
    (hr : r.remoteSyncId = rid) :
    (if strLt (if strLt acc rid then rid else acc) r.remoteSyncId then r.remoteSyncId
     else (if strLt acc rid then rid else acc)) = (if strLt acc rid then rid else acc) := by
  rw [hr]
  by_cases h : strLt acc rid = true
  · rw [if_pos h, strLt_self, if_neg (by simp)]
  · rw [if_neg h, if_neg h]

theorem maxSyncId_all_eq {rid : String} :
    ∀ rows : List SqliteNode, rows ≠ [] →
      (∀ r ∈ rows, r.remoteSyncId = rid) → maxSyncId rows = rid := by
  have fixed : ∀ (l : List SqliteNode) (acc : String),
      (∀ r ∈ l, r.remoteSyncId = rid) →
      l.foldl (fun a r => if strLt a r.remoteSyncId then r.remoteSyncId else a)
          (if strLt acc rid then rid else acc)
        = (if strLt acc rid then rid else acc) := by
    intro l
    induction l with
    | nil => intro _ _; rfl
    | cons r rs ih =>
      intro acc h
      rw [List.foldl_cons, maxSyncId_step_fixed rid acc r (h r (by simp))]
      exact ih acc (fun z hz => h z (by simp [hz]))
  intro rows hne h
  cases rows with
  | nil => exact absurd rfl hne
  | cons r rs =>
    rw [maxSyncId, List.foldl_cons]
    have h0 : (if strLt "" r.remoteSyncId then r.remoteSyncId else "")
        = (if strLt "" rid then rid else "") := by rw [h r (by simp)]
    rw [h0, fixed rs "" (fun z hz => h z (by simp [hz]))]
    cases hv : rid.data with
    | nil =>
      have : rid = "" := by cases rid; simp at hv; rw [hv]
      rw [this]
      rw [strLt_self]
      rfl
    | cons c cs =>
      have : strLt "" rid = true := by
        rw [strLt, hv]
        rfl
      rw [if_pos this]

theorem rowToNode_toRow {Delta Meta : Type} (encD : Delta → String)
    (decD : String → Delta) (encM : Meta → String) (decM : String → Meta)
    (rid : String) (n : DiffNode Delta Meta)
    (hd : ∀ d, decD (encD d) = d) (hdne : ∀ d, encD d ≠ "")
    (hm : ∀ m, decM (encM m) = m) (hmne : ∀ m, encM m ≠ "")
    (hb : n.baseRef ≠ some "") (hmr : n.mergeRef ≠ some "")
    (hmb : n.mergeBaseRef ≠ some "") :
    rowToNode decD decM (toRow encD encM rid n) = { n with remoteSyncId := rid } := by
  have horu : ∀ o : Option String, o ≠ some "" → orUndefined o = o := by
    intro o ho
    cases o with
    | none => rfl
    | some s =>
      rw [orUndefined, if_neg ?_]
      intro hs
      exact ho (by rw [hs])
  have hpf : ∀ {α : Type} (enc : α → String) (dec : String → α),
      (∀ x, dec (enc x) = x) → (∀ x, enc x ≠ "") →
      ∀ o : Option α, parseField dec (o.map enc) = o := by
    intro α enc dec hrt hne o
    cases o with
    | none => rfl
    | some x =>
      show parseField dec (some (enc x)) = some x
      rw [parseField, if_neg (hne x), hrt x]
  unfold rowToNode toRow
  simp only
  rw [horu n.baseRef hb, horu n.mergeRef hmr, horu n.mergeBaseRef hmb,
    hpf encD decD hd hdne n.delta, hpf encM decM hm hmne n.editMetadata]

end DocStore

/-- Concrete JSON codec for closed instances: prefix a marker character.
It is injective, never produces the empty string, and `decW` inverts it. -/
def encW (s : String) : String := String.mk ('j' :: s.data)

/-- Inverse of `encW`: drop the marker character. -/
def decW (s : String) : String := String.mk s.data.tail

theorem decW_encW (s : String) : decW (encW s) = s := by cases s; rfl

theorem encW_ne (s : String) : encW s ≠ "" := by
  intro h
  exact List.cons_ne_nil 'j' s.data (congrArg String.data h)

/-- C9 counterexample, two concrete failing inputs of the claim as
stated.  First, a root node — `ref "r"` with no parent refs and no
payloads, so no empty-string parent refs — makes `add` throw:
better-sqlite3 rejects the `undefined` named-parameter bindings with a
`TypeError` before anything is stored, so no round trip happens at all.
Second, for the empty list `add([])` acks with the generated batch sync
id (here "t"), while the following `getNodesEvent()` folds its running
maximum over zero rows and reports the sync id `""`, not "t". -/
theorem C9_counterexample :
    DocStore.add encW encW [] [({ ref := "r" } : DiffNode String String)] "t"
      = Except.error
          "TypeError: SQLite3 can only bind numbers, strings, bigints, buffers, and null"
    ∧ DocStore.add encW encW [] ([] : List (DiffNode String String)) "t"
      = Except.ok ([], { refs := [], syncId := "t" })
    ∧ (DocStore.getNodesEvent decW decW ([] : List SqliteNode) none
        : NodesEvent String String).syncId = ""
    ∧ ("" : String) ≠ "t" :=
  ⟨rfl, rfl, rfl, by decide⟩

/-- C9 (amended, as the counterexample forces: the node list must be
nonempty — with an empty batch the event's sync id is `""` rather than
the generated value — and every node must carry all five optional fields,
because better-sqlite3 throws a `TypeError` on an `undefined` binding, so
`add` refuses any node with an absent `baseRef`, `mergeRef`,
`mergeBaseRef`, `delta`, or `editMetadata`): for every such list of nodes
with pairwise distinct refs, JSON-serializable delta and editMetadata
(modelled by codecs that round-trip and never return the empty string),
and no empty-string parent refs, `add` on an empty store succeeds, acks
all refs with the batch sync id, and a subsequent `getNodesEvent()`
returns the same nodes — equal `ref`, `userId`, `clientId`, `baseRef`,
`mergeRef`, `mergeBaseRef`, `delta`, `editMetadata` — each carrying the
batch sync id as its `remoteSyncId`, with the event's sync id equal to
that same value. -/
theorem C9_docstore_roundtrip (Delta Meta : Type)
    (encD : Delta → String) (decD : String → Delta)
    (encM : Meta → String) (decM : String → Meta)
    (nodes : List (DiffNode Delta Meta)) (rid : String)
    (hne : nodes ≠ [])
    (hd : ∀ d, decD (encD d) = d) (hdne : ∀ d, encD d ≠ "")
    (hm : ∀ m, decM (encM m) = m) (hmne : ∀ m, encM m ≠ "")
    (hrefs : nodes.Pairwise (fun a b => a.ref ≠ b.ref))
    (hdefined : ∀ n ∈ nodes,
      n.baseRef ≠ none ∧ n.mergeRef ≠ none ∧ n.mergeBaseRef ≠ none
        ∧ n.delta ≠ none ∧ n.editMetadata ≠ none)
    (hparents : ∀ n ∈ nodes,
      n.baseRef ≠ some "" ∧ n.mergeRef ≠ some "" ∧ n.mergeBaseRef ≠ some "") :
    DocStore.add encD encM [] nodes rid =
      Except.ok (nodes.map (DocStore.toRow encD encM rid),
        { refs := nodes.map DiffNode.ref, syncId := rid })
    ∧ DocStore.getNodesEvent decD decM (nodes.map (DocStore.toRow encD encM rid)) none =
        { nodes := nodes.map (fun n => { n with remoteSyncId := rid }),
          syncId := rid } := by
  have hkeys : ∀ r ∈ nodes.map (DocStore.toRow encD encM rid), r.remoteSyncId = rid := by
    intro r hr
    rcases List.mem_map.mp hr with ⟨n, _, rfl⟩
    rfl
  constructor
  · unfold DocStore.add
    rw [DocStore.foldlM_insertRow_ok encD encM rid nodes []
      (fun n _ r hr => absurd hr (List.not_mem_nil r)) hrefs hdefined]
    rfl
  · unfold DocStore.getNodesEvent
    simp only
    rw [DocStore.sortRows_all_eq hkeys,
      DocStore.maxSyncId_all_eq _ (fun h => hne (List.map_eq_nil_iff.mp h)) hkeys]
    congr 1
    rw [List.map_map]
    refine List.map_congr_left ?_
    intro n hn
    exact DocStore.rowToNode_toRow encD decD encM decM rid n hd hdne hm hmne
      (hparents n hn).1 (hparents n hn).2.1 (hparents n hn).2.2

/-- Witness node with every optional field present (better-sqlite3 binds
only defined values). -/
def n1W : DiffNode String String :=
  { ref := "r1", userId := "u", clientId := "c1", baseRef := some "b1",
    mergeRef := some "q1", mergeBaseRef := some "g1",
    delta := some "d1", editMetadata := some "m1" }

/-- Second witness node, all optional fields present, parented on the
first. -/
def n2W : DiffNode String String :=
  { ref := "r2", userId := "u", clientId := "c2", baseRef := some "r1",
    mergeRef := some "q2", mergeBaseRef := some "g2",
    delta := some "d2", editMetadata := some "m2" }

/-- Witness for C9 at a concrete two-node batch with sync id "T". -/
theorem C9_witness :
    ([n1W, n2W] : List (DiffNode String String)) ≠ []
    ∧ List.Pairwise (fun a b => a.ref ≠ b.ref) [n1W, n2W]
    ∧ (DocStore.add encW encW [] [n1W, n2W] "T" =
        Except.ok ([n1W, n2W].map (DocStore.toRow encW encW "T"),
          { refs := [n1W, n2W].map DiffNode.ref, syncId := "T" })
      ∧ DocStore.getNodesEvent decW decW
            ([n1W, n2W].map (DocStore.toRow encW encW "T")) none =
          { nodes := [n1W, n2W].map (fun n => { n with remoteSyncId := "T" }),
            syncId := "T" }) :=
  ⟨by decide, by simp [List.pairwise_cons, n1W, n2W],
    C9_docstore_roundtrip String String encW decW encW decW [n1W, n2W] "T"
      (by decide) decW_encW encW_ne decW_encW encW_ne
      (by simp [List.pairwise_cons, n1W, n2W]) (by decide) (by decide)⟩

end TrimergeSync
